import Mathlib

set_option exponentiation.threshold 1100

/-!
Shallow embedding of the BenchMarket blackjack round engine, bankroll ledger
and market settlement layer, translated from the TypeScript source
(`backend/src/domains/blackjack/engine.ts`, `service.ts`, and the market
service), together with theorems settling the specification claims.

Conventions of the embedding:
* money amounts are `Int` cents (the database column is a signed BIGINT);
* the deck is a `List Card` whose head is the next card drawn (the source
  draws with `deck.pop()`, taking from the end of the shuffled array);
* database rows live in explicit lists; SQL `UPDATE`/`INSERT` statements
  become pure functions on those lists;
* a thrown JavaScript `Error` is `Except.error` with the thrown message;
* external AI replies are plain strings consumed from a finite list
  (the real gateway produces one reply per request).
-/

namespace BenchMarket

/-! ## Card engine (engine.ts) -/

inductive Rank
  | r2 | r3 | r4 | r5 | r6 | r7 | r8 | r9 | r10 | rJ | rQ | rK | rA
  deriving DecidableEq, Repr

inductive Suit
  | H | D | C | S
  deriving DecidableEq, Repr

structure Card where
  rank : Rank
  suit : Suit
  deriving DecidableEq, Repr

/-- `cardValue`: Ace is 11, face cards are 10, pip cards their number. -/
def cardValue (c : Card) : Nat :=
  match c.rank with
  | .rA => 11
  | .rK => 10
  | .rQ => 10
  | .rJ => 10
  | .r10 => 10
  | .r9 => 9
  | .r8 => 8
  | .r7 => 7
  | .r6 => 6
  | .r5 => 5
  | .r4 => 4
  | .r3 => 3
  | .r2 => 2

/-- The `while (total > 21 && aces)` loop of `handValue`, recursing on the
number of aces still adjustable. -/
def adjustAces : Nat → Nat → Nat
  | total, 0 => total
  | total, aces + 1 => if total > 21 then adjustAces (total - 10) aces else total

/-- `handValue`: sum of card values, minus 10 per ace while the total busts. -/
def handValue (cards : List Card) : Nat :=
  adjustAces ((cards.map cardValue).sum)
    ((cards.filter (fun c => c.rank = Rank.rA)).length)

/-- `isBust`: hand value strictly above 21. -/
def isBust (cards : List Card) : Bool := handValue cards > 21

inductive Outcome
  | win | loss | push
  deriving DecidableEq, Repr

/-- `resolveHand`: player bust loses, else dealer bust wins, else compare. -/
def resolveHand (playerCards dealerCards : List Card) : Outcome :=
  let pv := handValue playerCards
  let dv := handValue dealerCards
  if pv > 21 then .loss
  else if dv > 21 then .win
  else if pv > dv then .win
  else if pv < dv then .loss
  else .push

/-- `dealerPlays`: draw while the hand value is below 17.  Returns the final
hand and the remaining deck; `none` models the source popping an empty deck
(which would crash). -/
def dealerPlays (deck hand : List Card) : Option (List Card × List Card) :=
  if handValue hand < 17 then
    match deck with
    | [] => none
    | c :: rest => dealerPlays rest (hand ++ [c])
  else some (hand, deck)

/-! ## Bankroll ledger (the SQL in service.ts) -/

/-- A `daily_bankrolls` key: (model id, date). -/
abbrev LedgerKey := String × String

/-- The `daily_bankrolls` table: one signed balance per (model, date). -/
structure Ledger where
  rows : List (LedgerKey × Int)
  deriving DecidableEq, Repr

def Ledger.balOf (l : Ledger) (k : LedgerKey) : Option Int :=
  (l.rows.find? (fun r => r.1 = k)).map (fun r => r.2)

def Ledger.setBal (l : Ledger) (k : LedgerKey) (v : Int) : Ledger :=
  ⟨l.rows.map (fun r => if r.1 = k then (k, v) else r)⟩

/-- Environment-derived configuration (config.ts defaults in comments). -/
structure Config where
  blackjackDailyCents : Int   -- default 10_000_000
  blackjackMinBetCents : Int  -- default 100
  blackjackMaxBetCents : Int  -- default 100_000
  deriving DecidableEq, Repr

def defaultConfig : Config := ⟨10000000, 100, 100000⟩

/-- `getOrCreateDailyBankroll`: `INSERT ... ON CONFLICT DO UPDATE SET
updated_at = NOW() RETURNING balance_cents` — seeds the daily allowance on
first access, otherwise returns the existing balance unchanged. -/
def getOrCreateDailyBankroll (dailyCents : Int) (l : Ledger)
    (modelId date : String) : Ledger × Int :=
  match l.balOf (modelId, date) with
  | some b => (l, b)
  | none => (⟨l.rows ++ [((modelId, date), dailyCents)]⟩, dailyCents)

/-- `deductBet`: guarded `UPDATE ... SET balance_cents = balance_cents - $3
WHERE ... AND balance_cents >= $3 RETURNING balance_cents`; when no row
matches (insufficient balance or missing row) the function throws. -/
def deductBet (l : Ledger) (modelId date : String) (betCents : Int) :
    Except String (Ledger × Int) :=
  match l.balOf (modelId, date) with
  | some b =>
    if betCents ≤ b then
      .ok (l.setBal (modelId, date) (b - betCents), b - betCents)
    else .error ("Insufficient bankroll or no row")
  | none => .error ("Insufficient bankroll or no row")

/-- `creditResult`: unguarded `UPDATE ... SET balance_cents = balance_cents
+ $3` — adds the (possibly negative) amount; a missing row is a no-op. -/
def creditResult (l : Ledger) (modelId date : String) (pnlCents : Int) :
    Ledger :=
  match l.balOf (modelId, date) with
  | some b => l.setBal (modelId, date) (b + pnlCents)
  | none => l

/-! ## Decision protocol (parseBetFromResponse and decision normalization) -/

/-- The whitespace class of the JavaScript regex `\s`: the ASCII whitespace
characters together with the Unicode space separators recognized by
ECMAScript (NBSP, Ogham space mark, the U+2000–U+200A range, line and
paragraph separators, narrow no-break space, medium mathematical space,
ideographic space, and the BOM). -/
def isJsSpace (c : Char) : Bool :=
  c = ' ' ∨ c = '\t' ∨ c = '\n' ∨ c = '\r' ∨ c = '\x0b' ∨ c = '\x0c' ∨
  c = '\u00A0' ∨ c = '\u1680' ∨ ('\u2000' ≤ c ∧ c ≤ '\u200A') ∨
  c = '\u2028' ∨ c = '\u2029' ∨ c = '\u202F' ∨ c = '\u205F' ∨
  c = '\u3000' ∨ c = '\uFEFF'

def digitsVal (cs : List Char) : Nat :=
  cs.foldl (fun acc c => 10 * acc + (c.toNat - ('0').toNat)) 0

/-- `Math.round(dollars * 100)` for the non-negative decimal
`intPart.fracPart` with `k` fractional digits, computed exactly: JS rounds
half toward positive infinity, so the result is
`⌊(intPart + fracPart/10^k)·100 + 1/2⌋`.  (The source goes through binary
floating point via `parseFloat`; the claims proved below depend only on
the parse succeeding, not on the last-ulp value.) -/
def centsOf (intPart fracPart k : Nat) : Nat :=
  ((intPart * 10 ^ k + fracPart) * 100 * 2 + 10 ^ k) / (2 * 10 ^ k)

/-- Try to match the regex `BET:\s*\$?\s*(\d+(?:\.\d+)?)` (case-insensitive
on the letters) anchored at the head of `cs`; returns the captured
integer- and fraction-digit runs. -/
def matchBetAt (cs : List Char) : Option (List Char × List Char) :=
  match cs with
  | b :: e :: t :: colon :: rest =>
    if b.toLower = 'b' ∧ e.toLower = 'e' ∧ t.toLower = 't' ∧ colon = ':' then
      let r1 := rest.dropWhile isJsSpace
      let r2 := match r1 with
        | '$' :: r => r.dropWhile isJsSpace
        | _ => r1
      let intDigits := r2.takeWhile Char.isDigit
      let r3 := r2.dropWhile Char.isDigit
      if intDigits.isEmpty then none
      else
        let fracDigits := match r3 with
          | '.' :: r4 => r4.takeWhile Char.isDigit
          | _ => []
        some (intDigits, fracDigits)
    else none
  | _ => none

/-- Left-to-right scan for the first position where the pattern matches
(first-match semantics of `text.match(...)`). -/
def scanBet : List Char → Option (List Char × List Char)
  | [] => none
  | c :: rest =>
    match matchBetAt (c :: rest) with
    | some v => some v
    | none => scanBet rest

/-- `parseFloat` of the captured decimal returns Infinity — failing the
source's `Number.isFinite(dollars)` check — exactly when the value reaches
the IEEE-754 double overflow threshold `2^1024 − 2^970` (the midpoint above
the largest finite double, which round-to-nearest-even sends to
Infinity). -/
def jsOverflows (intPart fracPart k : Nat) : Bool :=
  (2 ^ 1024 - 2 ^ 970) * 10 ^ k ≤ intPart * 10 ^ k + fracPart

/-- `parseBetFromResponse`: take the first regex match of the whole text,
then `null` when `parseFloat` of the captured group is not finite (the
first match decides — an overflowing match is not skipped in favour of a
later one), else the rounded cents.  The source's `dollars < 0` guard is
unreachable: the captured group is all digits. -/
def parseBetFromResponse (s : String) : Option Nat :=
  match scanBet s.data with
  | none => none
  | some (intDigits, fracDigits) =>
    if jsOverflows (digitsVal intDigits) (digitsVal fracDigits)
        fracDigits.length then none
    else some (centsOf (digitsVal intDigits) (digitsVal fracDigits)
      fracDigits.length)

/-- `toLowerCase().startsWith("hit")` expressed on the character list. -/
def loweredLeadsWithHit (s : String) : Bool :=
  match s.data.map Char.toLower with
  | 'h' :: 'i' :: 't' :: _ => true
  | _ => false

/-- `decision.toLowerCase().startsWith("hit") ? "hit" : "stand"` — the
defensive decision normalization used by every orchestrator. -/
def normalizeDecision (s : String) : String :=
  if loweredLeadsWithHit s then "hit" else "stand"

/-- The bet clamp `raw != null ? Math.max(minBet, Math.min(handMaxBet, raw))
: minBet` shared by `getAIBetCents`, `playHandsStream` and the VS `askBet`. -/
def betFromReply (minBet handMaxBet : Int) (reply : String) : Int :=
  match parseBetFromResponse reply with
  | some raw => max minBet (min handMaxBet (raw : Int))
  | none => minBet

/-- `getAIBetCents` (without the provider lookup, whose failure precedes any
ledger access): seeds/reads the daily bankroll, computes
`handMaxBet = min(balance, MAX_BET_CENTS)`, throws when the balance is below
the minimum bet, otherwise parses and clamps the reply. -/
def getAIBetCents (cfg : Config) (l : Ledger) (modelId date : String)
    (reply : String) : Except String (Ledger × Int) :=
  let r := getOrCreateDailyBankroll cfg.blackjackDailyCents l modelId date
  let handMaxBet := min r.2 cfg.blackjackMaxBetCents
  if r.2 < cfg.blackjackMinBetCents then .error ("Insufficient bankroll")
  else .ok (r.1, betFromReply cfg.blackjackMinBetCents handMaxBet reply)

/-! ## Single-agent orchestrator `playHand` (service.ts) -/

/-- `deck.pop()!` — `none` on an exhausted deck models the crash. -/
def draw : List Card → Except String (Card × List Card)
  | [] => .error ("deck exhausted")
  | c :: rest => .ok (c, rest)

structure HandResult where
  playerCards : List Card
  dealerCards : List Card
  decision : String
  outcome : Outcome
  pnlCents : Int
  balanceCentsAfter : Int
  deriving DecidableEq, Repr

/-- The settlement tail of `playHand`: compute the outcome (a bust is an
immediate loss) and signed P/L, `deductBet` the wager, `creditResult` the
P/L, and re-read the balance (falling back to the locally computed value
when the row is missing). -/
def settleHand (l1 : Ledger) (modelId date : String) (betCents balance : Int)
    (decision : String) (playerCards dealerCards : List Card) :
    Except String (Ledger × HandResult) :=
  let outcome := if isBust playerCards then Outcome.loss
    else resolveHand playerCards dealerCards
  let pnlCents : Int := match outcome with
    | .win => betCents
    | .loss => -betCents
    | .push => 0
  match deductBet l1 modelId date betCents with
  | .error e => .error e
  | .ok (l2, _) =>
  let l3 := creditResult l2 modelId date pnlCents
  let balanceCentsAfter :=
    (l3.balOf (modelId, date)).getD (balance - betCents + pnlCents)
  .ok (l3, ⟨playerCards, dealerCards, decision, outcome, pnlCents,
    balanceCentsAfter⟩)

/-- The dealer phase of `playHand`: the dealer plays out only when the
player has not busted; on a bust the dealer keeps the two dealt cards. -/
def finishPlayHand (l1 : Ledger) (modelId date : String)
    (betCents balance : Int) (decision : String) (playerCards : List Card)
    (up down : Card) (deck : List Card) :
    Except String (Ledger × HandResult) :=
  if isBust playerCards then
    settleHand l1 modelId date betCents balance decision playerCards
      [up, down]
  else
    match dealerPlays deck [up, down] with
    | none => .error ("deck exhausted")
    | some (dealerCards, _) =>
      settleHand l1 modelId date betCents balance decision playerCards
        dealerCards

/-- `playHand`: deal two player cards and the dealer's up/down cards, ask the
agent once, apply at most one hit, play the dealer only when the player has
not busted, resolve, then `deductBet` the wager and `creditResult` the signed
P/L.  Inputs replace the effects: `deck` the shuffled deck (head drawn
first), `decisionReply` the provider's `decision` field. -/
def playHand (cfg : Config) (l : Ledger) (modelId date : String)
    (betCents : Int) (deck : List Card) (decisionReply : String) :
    Except String (Ledger × HandResult) :=
  match getOrCreateDailyBankroll cfg.blackjackDailyCents l modelId date with
  | (l1, balance) =>
  if balance < betCents then .error ("Insufficient bankroll for this bet")
  else
  match draw deck with
  | .error e => .error e
  | .ok (p1, deck) =>
  match draw deck with
  | .error e => .error e
  | .ok (p2, deck) =>
  match draw deck with
  | .error e => .error e
  | .ok (up, deck) =>
  match draw deck with
  | .error e => .error e
  | .ok (down, deck) =>
  let decision := normalizeDecision decisionReply
  if decision = "hit" then
    match draw deck with
    | .error e => .error e
    | .ok (c, deck) =>
      finishPlayHand l1 modelId date betCents balance decision [p1, p2, c]
        up down deck
  else
    finishPlayHand l1 modelId date betCents balance decision [p1, p2]
      up down deck

/-! ## Streaming orchestrator `playHandsStream` (service.ts) -/

/-- One ask of the provider: consume the next reply of the finite stream. -/
def nextReply : List String → Except String (String × List String)
  | [] => .error ("no reply")
  | r :: rest => .ok (r, rest)

/-- The player-turn loop of the streaming orchestrators: ask, and on "hit"
draw exactly one card and re-check bust; exit on "stand" or on bust.
Returns (final cards, remaining deck, last decision, remaining replies). -/
def playerTurn (deck cards : List Card) :
    List String → Except String (List Card × List Card × String × List String)
  | [] => .error ("no reply")
  | r :: rest =>
    let d := normalizeDecision r
    if d = "hit" then
      match deck with
      | [] => .error ("deck exhausted")
      | c :: deck' =>
        let cards' := cards ++ [c]
        if isBust cards' then .ok (cards', deck', "hit", rest)
        else playerTurn deck' cards' rest
    else .ok (cards, deck, "stand", rest)

structure StreamHandResult where
  betCents : Int
  playerCards : List Card
  dealerCards : List Card
  lastDecision : String
  outcome : Outcome
  pnlCents : Int
  balanceCentsAfter : Int
  deriving DecidableEq, Repr

/-- `maxBetCents > 0 ? Math.min(maxBetCents, MAX_BET_CENTS) : MAX_BET_CENTS`. -/
def effectiveMaxBetOf (cfg : Config) (maxBetCents : Int) : Int :=
  if maxBetCents > 0 then min maxBetCents cfg.blackjackMaxBetCents
  else cfg.blackjackMaxBetCents

/-- `Math.max(1, Math.min(hands, 100))` as a fuel count. -/
def totalHandsOf (hands : Int) : Nat := (max 1 (min hands 100)).toNat

/-- One loop body of `playHandsStream` (after the insufficient-bankroll
check): deal, ask the bet, play the player turn, then — unconditionally —
reveal and draw the dealer to 17, resolve, and settle the ledger.
`balance` is the orchestrator's locally tracked balance. -/
def playOneHandStream (cfg : Config) (effectiveMaxBet : Int) (l : Ledger)
    (modelId date : String) (deck : List Card) (replies : List String)
    (balance : Int) :
    Except String (Ledger × Int × StreamHandResult × List String) :=
  let minBet := cfg.blackjackMinBetCents
  let handMaxBet := min balance effectiveMaxBet
  match draw deck with
  | .error e => .error e
  | .ok (p1, deck) =>
  match draw deck with
  | .error e => .error e
  | .ok (p2, deck) =>
  match draw deck with
  | .error e => .error e
  | .ok (up, deck) =>
  match draw deck with
  | .error e => .error e
  | .ok (down, deck) =>
  match nextReply replies with
  | .error e => .error e
  | .ok (betReply, replies) =>
  let betCents := betFromReply minBet handMaxBet betReply
  match playerTurn deck [p1, p2] replies with
  | .error e => .error e
  | .ok (playerCards, deck, lastDecision, replies) =>
  match dealerPlays deck [up, down] with
  | none => .error ("deck exhausted")
  | some (dealerCards, _) =>
  let outcome := if isBust playerCards then Outcome.loss
    else resolveHand playerCards dealerCards
  let pnlCents : Int := match outcome with
    | .win => betCents
    | .loss => -betCents
    | .push => 0
  match deductBet l modelId date betCents with
  | .error e => .error e
  | .ok (l2, _) =>
  let l3 := creditResult l2 modelId date pnlCents
  let balance' := balance - betCents + pnlCents
  let balanceCentsAfter := (l3.balOf (modelId, date)).getD balance'
  .ok (l3, balance', ⟨betCents, playerCards, dealerCards, lastDecision,
    outcome, pnlCents, balanceCentsAfter⟩, replies)

inductive StopReason
  | completed
  | insufficientBankroll
  | fault (msg : String)
  deriving DecidableEq, Repr

structure StreamRun where
  ledger : Ledger
  balance : Int
  results : List StreamHandResult
  stop : StopReason
  deriving DecidableEq, Repr

/-- The `for (handIndex ...)` loop of `playHandsStream`: each hand uses a
fresh shuffled deck (one entry of `decks`); the run stops early when the
balance falls below the minimum bet.  A `fault` stop models a thrown
exception (or exhaustion of the embedding's finite deck/reply streams). -/
def streamLoop (cfg : Config) (effectiveMaxBet : Int) (modelId date : String) :
    Nat → Ledger → Int → List (List Card) → List String → StreamRun
  | 0, l, bal, _, _ => ⟨l, bal, [], .completed⟩
  | n + 1, l, bal, decks, replies =>
    if bal < cfg.blackjackMinBetCents then ⟨l, bal, [], .insufficientBankroll⟩
    else
      match decks with
      | [] => ⟨l, bal, [], .fault "no deck"⟩
      | deck :: decks' =>
        match playOneHandStream cfg effectiveMaxBet l modelId date deck
            replies bal with
        | .error msg => ⟨l, bal, [], .fault msg⟩
        | .ok (l', bal', res, replies') =>
          let rest := streamLoop cfg effectiveMaxBet modelId date n l' bal'
            decks' replies'
          ⟨rest.ledger, rest.balance, res :: rest.results, rest.stop⟩

/-- `playHandsStream modelId maxBetCents hands`: seed/read the bankroll then
run `Math.max(1, Math.min(hands, 100))` hands. -/
def playHandsStream (cfg : Config) (l : Ledger) (modelId date : String)
    (maxBetCents hands : Int) (decks : List (List Card))
    (replies : List String) : StreamRun :=
  let r := getOrCreateDailyBankroll cfg.blackjackDailyCents l modelId date
  streamLoop cfg (effectiveMaxBetOf cfg maxBetCents) modelId date
    (totalHandsOf hands) r.1 r.2 decks replies

/-! ## Two-agent orchestrator `playHandsStreamVs` (service.ts) -/

structure VsHandResult where
  betA : Int
  betB : Int
  cardsA : List Card
  cardsB : List Card
  dealerCards : List Card
  outcomeA : Outcome
  outcomeB : Outcome
  pnlA : Int
  pnlB : Int
  balanceAfterA : Int
  balanceAfterB : Int
  deriving DecidableEq, Repr

/-- One loop body of `playHandsStreamVs`: both players' hands are dealt
before the dealer's cards, both bets are asked sequentially, A then B play
out against the shared deck, then the dealer — unconditionally — draws to
17; each side is debited/credited against its own ledger row. -/
def playOneHandVs (cfg : Config) (effectiveMaxBet : Int) (l : Ledger)
    (modelIdA modelIdB date : String) (deck : List Card)
    (repliesA repliesB : List String) (balA balB : Int) :
    Except String (Ledger × Int × Int × VsHandResult ×
      List String × List String) :=
  let minBet := cfg.blackjackMinBetCents
  match draw deck with
  | .error e => .error e
  | .ok (a1, deck) =>
  match draw deck with
  | .error e => .error e
  | .ok (a2, deck) =>
  match draw deck with
  | .error e => .error e
  | .ok (b1, deck) =>
  match draw deck with
  | .error e => .error e
  | .ok (b2, deck) =>
  match draw deck with
  | .error e => .error e
  | .ok (up, deck) =>
  match draw deck with
  | .error e => .error e
  | .ok (down, deck) =>
  match nextReply repliesA with
  | .error e => .error e
  | .ok (betReplyA, repliesA) =>
  let betA := betFromReply minBet (min balA effectiveMaxBet) betReplyA
  match nextReply repliesB with
  | .error e => .error e
  | .ok (betReplyB, repliesB) =>
  let betB := betFromReply minBet (min balB effectiveMaxBet) betReplyB
  match playerTurn deck [a1, a2] repliesA with
  | .error e => .error e
  | .ok (cardsA, deck, _, repliesA) =>
  match playerTurn deck [b1, b2] repliesB with
  | .error e => .error e
  | .ok (cardsB, deck, _, repliesB) =>
  match dealerPlays deck [up, down] with
  | none => .error ("deck exhausted")
  | some (dealerCards, _) =>
  let outcomeA := if isBust cardsA then Outcome.loss
    else resolveHand cardsA dealerCards
  let outcomeB := if isBust cardsB then Outcome.loss
    else resolveHand cardsB dealerCards
  let pnlA : Int := match outcomeA with
    | .win => betA
    | .loss => -betA
    | .push => 0
  let pnlB : Int := match outcomeB with
    | .win => betB
    | .loss => -betB
    | .push => 0
  match deductBet l modelIdA date betA with
  | .error e => .error e
  | .ok (l2, _) =>
  let l3 := creditResult l2 modelIdA date pnlA
  match deductBet l3 modelIdB date betB with
  | .error e => .error e
  | .ok (l4, _) =>
  let l5 := creditResult l4 modelIdB date pnlB
  let balA' := balA - betA + pnlA
  let balB' := balB - betB + pnlB
  let afterA := (l5.balOf (modelIdA, date)).getD balA'
  let afterB := (l5.balOf (modelIdB, date)).getD balB'
  .ok (l5, balA', balB', ⟨betA, betB, cardsA, cardsB, dealerCards,
    outcomeA, outcomeB, pnlA, pnlB, afterA, afterB⟩, repliesA, repliesB)

structure VsRun where
  ledger : Ledger
  balanceA : Int
  balanceB : Int
  results : List VsHandResult
  stop : StopReason
  deriving DecidableEq, Repr

/-- The `for (handIndex ...)` loop of `playHandsStreamVs`; the run stops
early when either balance falls below the minimum bet. -/
def vsLoop (cfg : Config) (effectiveMaxBet : Int)
    (modelIdA modelIdB date : String) :
    Nat → Ledger → Int → Int → List (List Card) → List String →
      List String → VsRun
  | 0, l, balA, balB, _, _, _ => ⟨l, balA, balB, [], .completed⟩
  | n + 1, l, balA, balB, decks, repliesA, repliesB =>
    if balA < cfg.blackjackMinBetCents ∨ balB < cfg.blackjackMinBetCents then
      ⟨l, balA, balB, [], .insufficientBankroll⟩
    else
      match decks with
      | [] => ⟨l, balA, balB, [], .fault "no deck"⟩
      | deck :: decks' =>
        match playOneHandVs cfg effectiveMaxBet l modelIdA modelIdB date deck
            repliesA repliesB balA balB with
        | .error msg => ⟨l, balA, balB, [], .fault msg⟩
        | .ok (l', balA', balB', res, repliesA', repliesB') =>
          let rest := vsLoop cfg effectiveMaxBet modelIdA modelIdB date n l'
            balA' balB' decks' repliesA' repliesB'
          ⟨rest.ledger, rest.balanceA, rest.balanceB, res :: rest.results,
            rest.stop⟩

/-- `playHandsStreamVs`: seed/read both bankrolls then run
`Math.max(1, Math.min(hands, 100))` shared-dealer hands. -/
def playHandsStreamVs (cfg : Config) (l : Ledger)
    (modelIdA modelIdB date : String) (maxBetCents hands : Int)
    (decks : List (List Card)) (repliesA repliesB : List String) : VsRun :=
  let rA := getOrCreateDailyBankroll cfg.blackjackDailyCents l modelIdA date
  let rB := getOrCreateDailyBankroll cfg.blackjackDailyCents rA.1 modelIdB date
  vsLoop cfg (effectiveMaxBetOf cfg maxBetCents) modelIdA modelIdB date
    (totalHandsOf hands) rB.1 rA.2 rB.2 decks repliesA repliesB

/-! ## Market settlement layer (market service, `src/unnamed/part_012`) -/

/-- `Math.round(n / d)` for naturals, `d > 0`: JS rounds half toward
positive infinity, so this is `⌊n/d + 1/2⌋ = (2n + d) / (2d)`. -/
def jsRound (n d : Nat) : Nat := (2 * n + d) / (2 * d)

/-- A `performance_bets` row. -/
structure PerfBet where
  id : String
  domain : String
  model_id : String
  period : String
  direction : String
  amount_cents : Nat
  outcome : String
  payout_cents : Option Nat
  deriving DecidableEq, Repr

/-- The `totalYes`/`totalNo` sums of `settleBetsForPeriod` over all bets of
one (domain, model, period): `direction === "outperform"` counts toward yes,
everything else toward no. -/
def perfTotals (db : List PerfBet) (domain modelId period : String) :
    Nat × Nat :=
  db.foldl
    (fun t b =>
      if b.domain = domain ∧ b.model_id = modelId ∧ b.period = period then
        if b.direction = "outperform" then (t.1 + b.amount_cents, t.2)
        else (t.1, t.2 + b.amount_cents)
      else t)
    (0, 0)

/-- The per-bet update of `settleBetsForPeriod` for a pending bet of the
given (domain, period): winning side is the sign of the model's cumulative
P/L (`pnlOf`, the `getBlackjackDailyState` aggregate), parimutuel payout
with divisor 1 when the winning pool is empty. -/
def settlePerfBet (db : List PerfBet) (pnlOf : String → Int)
    (domain period : String) (b : PerfBet) : PerfBet :=
  if b.outcome = "pending" ∧ b.domain = domain ∧ b.period = period then
    let t := perfTotals db domain b.model_id period
    let totalPool := t.1 + t.2
    let isOutperform : Bool := pnlOf b.model_id > 0
    let totalWinning := if isOutperform then t.1 else t.2
    let divisor := if totalWinning > 0 then totalWinning else 1
    let win : Bool :=
      if b.direction = "outperform" then isOutperform else !isOutperform
    { b with
      outcome := if win then "win" else "loss",
      payout_cents := some (if win then
        jsRound (b.amount_cents * totalPool) divisor else 0) }
  else b

/-- `settleBetsForPeriod`: a no-op for any domain other than "blackjack";
otherwise every pending bet of the (domain, period) is settled.  The source
groups the pending bets by model only to batch the pool query; each row's
update is exactly `settlePerfBet` (the updates never change the fields the
pool sums read). -/
def settleBetsForPeriod (db : List PerfBet) (pnlOf : String → Int)
    (domain period : String) : List PerfBet :=
  if domain = "blackjack" then db.map (settlePerfBet db pnlOf domain period)
  else db

/-- A `next_3_bets` row, with the rounds-played and P/L snapshots taken at
placement time. -/
structure N3Bet where
  id : String
  model_a_id : String
  model_b_id : String
  direction : String
  amount_cents : Nat
  outcome : String
  payout_cents : Option Nat
  hands_a_at_bet : Nat
  pnl_a_at_bet : Int
  hands_b_at_bet : Nat
  pnl_b_at_bet : Int
  date : String
  deriving DecidableEq, Repr

/-- `getBlackjackDailyState` for a (model, date): rounds played so far and
cumulative P/L. -/
structure DailyState where
  handsPlayed : Nat
  pnlCents : Int
  deriving DecidableEq, Repr

/-- The `totalA`/`totalB` pool sums of the head-to-head settlement, over all
bets of the same (model pair, date). -/
def n3Totals (db : List N3Bet) (aId bId date : String) : Nat × Nat :=
  db.foldl
    (fun t r =>
      if r.model_a_id = aId ∧ r.model_b_id = bId ∧ r.date = date then
        if r.direction = "a_wins" then (t.1 + r.amount_cents, t.2)
        else (t.1, t.2 + r.amount_cents)
      else t)
    (0, 0)

/-- The per-bet step of the `listNext3Bets` settlement pass.  Returns the
(possibly updated) row and the amount credited to the user balance for it
(0 when the bet is skipped).  A non-pending bet is skipped; a pending bet
settles only once both models have played at least 3 hands beyond their
placement snapshots; equal P/L gains are a push refunding exactly the
stake; otherwise parimutuel payout over the same (pair, date) pool. -/
def settleN3Bet (db : List N3Bet) (stats : String → String → DailyState)
    (b : N3Bet) : N3Bet × Nat :=
  if b.outcome ≠ "pending" then (b, 0)
  else
    let sA := stats b.model_a_id b.date
    let sB := stats b.model_b_id b.date
    if sA.handsPlayed ≥ b.hands_a_at_bet + 3 ∧
        sB.handsPlayed ≥ b.hands_b_at_bet + 3 then
      let gainA := sA.pnlCents - b.pnl_a_at_bet
      let gainB := sB.pnlCents - b.pnl_b_at_bet
      if gainA = gainB then
        ({ b with outcome := "push", payout_cents := some b.amount_cents },
          b.amount_cents)
      else
        let aWins : Bool := gainA > gainB
        let bWins : Bool := gainB > gainA
        let win : Bool := (decide (b.direction = "a_wins") && aWins) ||
          (decide (b.direction = "b_wins") && bWins)
        if win then
          let t := n3Totals db b.model_a_id b.model_b_id b.date
          let totalPool := t.1 + t.2
          let totalWinning := if aWins then t.1 else t.2
          let divisor := if totalWinning > 0 then totalWinning else 1
          let payout := jsRound (b.amount_cents * totalPool) divisor
          ({ b with outcome := "win", payout_cents := some payout }, payout)
        else ({ b with outcome := "loss", payout_cents := some 0 }, 0)
    else (b, 0)

/-- The settlement pass of `listNext3Bets` over the whole `next_3_bets`
table, also summing the amounts credited to the user balance.  The pool
sums are taken over the table as loaded at the start of the pass; the
mid-pass `UPDATE`s only touch `outcome`/`payout_cents`, which the pool
never reads, so this is the source's net effect. -/
def settleN3Pass (db : List N3Bet) (stats : String → String → DailyState) :
    List N3Bet × Nat :=
  (db.map (fun b => (settleN3Bet db stats b).1),
    (db.map (fun b => (settleN3Bet db stats b).2)).sum)

/-! ## Claim theorems -/

/-- The worked example of spec §8: player 10♠ 6♥ (16) stands against dealer
K♦ 9♣ (19); the trailing card is never drawn. -/
def specExampleDeck : List Card :=
  [⟨.r10, .S⟩, ⟨.r6, .H⟩, ⟨.rK, .D⟩, ⟨.r9, .C⟩, ⟨.r2, .S⟩]

/-- **C1** (code_bug): the claim says the post-round balance is
pre − wager + (wager + P/L), i.e. pre + P/L — for the spec §8 example
(pre 10,000,000¢, wager 100,000¢, loss) that is 9,900,000¢.  The code
debits the wager and then credits only the signed P/L, landing at
9,800,000¢: each round nets P/L − wager (a win nets 0, a push −wager, a
loss −2·wager).  This contradicts `creditResult`'s own doc comment
("Credit winnings (or refund push)" — a push credits 0, refunding nothing)
and the startup hydration, which rebuilds the daily bankrolls from the
per-hand P/L alone (`recomputeDailyBankrollsFromHands`), i.e. as
allowance + ΣP/L. -/
theorem C1_settlement_nets_pnl_minus_wager :
    ∃ l' r, playHand defaultConfig ⟨[]⟩ "m" "2025-01-01" 100000
        specExampleDeck "stand" = .ok (l', r) ∧
      r.outcome = .loss ∧ r.pnlCents = -100000 ∧
      r.balanceCentsAfter = 9800000 ∧
      r.balanceCentsAfter ≠ 10000000 - 100000 + (100000 + r.pnlCents) := by
  refine ⟨_, _, rfl, rfl, rfl, rfl, by decide⟩

/-- **C2** (code_bug): the claim says the daily bankroll never goes below
zero.  With balance 100,000¢ the agent may wager 100,000¢ (the wager-time
guard holds); on a loss the code debits 100,000 (leaving 0) and then
credits −100,000, leaving the ledger at −100,000¢ < 0.  With the crediting
the spec intends (wager + P/L, never negative) the invariant would hold. -/
theorem C2_balance_can_go_negative :
    ∃ l' r, playHand ⟨100000, 100, 100000⟩ ⟨[]⟩ "m" "2025-01-01" 100000
        specExampleDeck "stand" = .ok (l', r) ∧
      l'.balOf ("m", "2025-01-01") = some (-100000) ∧
      r.balanceCentsAfter < 0 := by
  refine ⟨_, _, rfl, rfl, by decide⟩

/-- **C4 counterexample**: called with amount 500 against balance 100,
`deductBet` does not return a declined result — it throws (an
`Except.error`, modelling the source's `throw new Error(...)` when the
guarded `UPDATE` matches no row). -/
theorem C4_counterexample :
    deductBet ⟨[(("m", "d"), 100)]⟩ "m" "d" 500 =
      .error ("Insufficient bankroll or no row") := by rfl

/-- **C4 amended**: when the amount exceeds the balance for the (agent,
date), `deductBet` throws an "Insufficient bankroll or no row" error — a
fault, not a declined result — and, the guarded `UPDATE` having matched
no row, the ledger is left unchanged (the error carries no new ledger);
when amount ≤ balance it atomically decrements the balance by the
amount. -/
theorem C4_insufficient_debit_throws (l : Ledger) (m d : String)
    (amount b : Int) (hb : l.balOf (m, d) = some b) :
    (b < amount → deductBet l m d amount =
      .error ("Insufficient bankroll or no row")) ∧
    (amount ≤ b → deductBet l m d amount =
      .ok (l.setBal (m, d) (b - amount), b - amount)) := by
  constructor
  · intro h
    simp only [deductBet, hb]
    rw [if_neg (by omega)]
  · intro h
    simp only [deductBet, hb]
    rw [if_pos h]

theorem C4_insufficient_debit_throws_witness :
    Ledger.balOf ⟨[(("m", "d"), 100)]⟩ ("m", "d") = some 100 ∧
    deductBet ⟨[(("m", "d"), 100)]⟩ "m" "d" 40 =
      .ok (Ledger.setBal ⟨[(("m", "d"), 100)]⟩ ("m", "d") 60, 60) :=
  ⟨by rfl,
    (C4_insufficient_debit_throws ⟨[(("m", "d"), 100)]⟩ "m" "d" 40 100
      (by rfl)).2 (by decide)⟩

/-- Any hand `dealerPlays` returns has value at least 17. -/
theorem dealerPlays_ge17 (deck : List Card) : ∀ hand fin rest,
    dealerPlays deck hand = some (fin, rest) → 17 ≤ handValue fin := by
  induction deck with
  | nil =>
    intro hand fin rest h
    unfold dealerPlays at h
    split at h
    · exact Option.noConfusion h
    · next hge =>
      simp only [Option.some.injEq, Prod.mk.injEq] at h
      obtain ⟨rfl, rfl⟩ := h
      omega
  | cons c deck ih =>
    intro hand fin rest h
    unfold dealerPlays at h
    split at h
    · exact ih _ _ _ h
    · next hge =>
      simp only [Option.some.injEq, Prod.mk.injEq] at h
      obtain ⟨rfl, rfl⟩ := h
      omega

/-- Inversion for `settleHand`: any successful settlement reports exactly
the given hands and the outcome computed from them (bust forcing a loss). -/
theorem settleHand_ok (l1 : Ledger) (modelId date : String)
    (betCents balance : Int) (decision : String)
    (playerCards dealerCards : List Card) (l' : Ledger) (r : HandResult)
    (h : settleHand l1 modelId date betCents balance decision playerCards
      dealerCards = .ok (l', r)) :
    r.playerCards = playerCards ∧ r.dealerCards = dealerCards ∧
    r.decision = decision ∧
    r.outcome = (if isBust playerCards then Outcome.loss
      else resolveHand playerCards dealerCards) := by
  unfold settleHand at h
  repeat' split at h
  all_goals try exact Except.noConfusion h
  all_goals simp only [Except.ok.injEq, Prod.mk.injEq] at h
  all_goals obtain ⟨rfl, rfl⟩ := h
  all_goals refine ⟨rfl, rfl, rfl, ?_⟩
  all_goals simp_all

/-- Inversion for `finishPlayHand`: on a bust the dealer hand is exactly the
two dealt cards and the outcome a loss; otherwise the dealer hand was played
out to at least 17 and the outcome is `resolveHand`. -/
theorem finishPlayHand_ok (l1 : Ledger) (modelId date : String)
    (betCents balance : Int) (decision : String) (playerCards : List Card)
    (up down : Card) (deck : List Card) (l' : Ledger) (r : HandResult)
    (h : finishPlayHand l1 modelId date betCents balance decision playerCards
      up down deck = .ok (l', r)) :
    r.playerCards = playerCards ∧ r.decision = decision ∧
    (isBust playerCards = true →
      r.dealerCards = [up, down] ∧ r.outcome = .loss) ∧
    (isBust playerCards = false →
      17 ≤ handValue r.dealerCards ∧
      r.outcome = resolveHand playerCards r.dealerCards) := by
  unfold finishPlayHand at h
  split at h
  · next hb =>
    obtain ⟨hp, hd, hdec, ho⟩ := settleHand_ok _ _ _ _ _ _ _ _ _ _ h
    refine ⟨hp, hdec, fun _ => ⟨hd, ?_⟩, fun hb' => absurd hb' (by simp [hb])⟩
    rw [ho, if_pos hb]
  · next hb =>
    rw [Bool.not_eq_true] at hb
    split at h
    · exact Except.noConfusion h
    · next heq =>
      obtain ⟨hp, hd, hdec, ho⟩ := settleHand_ok _ _ _ _ _ _ _ _ _ _ h
      refine ⟨hp, hdec, fun hb' => absurd hb' (by simp [hb]),
        fun _ => ⟨?_, ?_⟩⟩
      · rw [hd]
        exact dealerPlays_ge17 _ _ _ _ heq
      · rw [ho, if_neg (by simp [hb]), hd]

/-- Inversion for `playHand`: the agent is asked exactly once (the reported
decision is the normalized single reply), so the player holds two or three
cards; a bust resolves as a loss with the dealer keeping the two dealt
cards, otherwise the dealer ends at 17 or more. -/
theorem playHand_ok (cfg : Config) (l : Ledger) (modelId date : String)
    (betCents : Int) (deck : List Card) (reply : String) (l' : Ledger)
    (r : HandResult)
    (h : playHand cfg l modelId date betCents deck reply = .ok (l', r)) :
    r.decision = normalizeDecision reply ∧
    (r.playerCards.length = 2 ∨ r.playerCards.length = 3) ∧
    (isBust r.playerCards = true →
      r.dealerCards.length = 2 ∧ r.outcome = .loss) ∧
    (isBust r.playerCards = false →
      17 ≤ handValue r.dealerCards ∧
      r.outcome = resolveHand r.playerCards r.dealerCards) := by
  unfold playHand at h
  repeat' split at h
  all_goals try exact Except.noConfusion h
  all_goals simp only [] at h
  all_goals split at h
  all_goals try exact Except.noConfusion h
  all_goals obtain ⟨hp, hdec, hbust, hnb⟩ :=
    finishPlayHand_ok _ _ _ _ _ _ _ _ _ _ _ _ h
  all_goals rw [← hp] at hbust hnb
  all_goals refine ⟨hdec, ?_, fun hb =>
    ⟨by rw [(hbust hb).1]; rfl, (hbust hb).2⟩, hnb⟩
  all_goals rw [hp]
  all_goals simp

/-- Inversion for the streaming single-agent hand: the dealer hand is
always played out to at least 17 (even after a player bust), and the
outcome is a loss whenever the player busted. -/
theorem playOneHandStream_ok (cfg : Config) (emax : Int) (l : Ledger)
    (modelId date : String) (deck : List Card) (replies : List String)
    (balance : Int) (l' : Ledger) (bal' : Int) (res : StreamHandResult)
    (rep' : List String)
    (h : playOneHandStream cfg emax l modelId date deck replies balance =
      .ok (l', bal', res, rep')) :
    17 ≤ handValue res.dealerCards ∧
    (isBust res.playerCards = true → res.outcome = .loss) ∧
    (isBust res.playerCards = false →
      res.outcome = resolveHand res.playerCards res.dealerCards) := by
  unfold playOneHandStream at h
  repeat' (first
    | exact Except.noConfusion h
    | split at h
    | simp only [] at h)
  all_goals simp only [Except.ok.injEq, Prod.mk.injEq] at h
  all_goals obtain ⟨rfl, rfl, rfl, rfl⟩ := h
  all_goals refine ⟨?_, ?_, ?_⟩
  all_goals try (intro hb)
  all_goals simp_all
  all_goals try (exact dealerPlays_ge17 _ _ _ _ (by assumption))

/-- Inversion for the VS hand: the shared dealer hand is always played out
to at least 17, and each side's outcome is a loss whenever that side
busted. -/
theorem playOneHandVs_ok (cfg : Config) (emax : Int) (l : Ledger)
    (mA mB date : String) (deck : List Card) (rA rB : List String)
    (balA balB : Int) (l' : Ledger) (balA' balB' : Int) (res : VsHandResult)
    (rA' rB' : List String)
    (h : playOneHandVs cfg emax l mA mB date deck rA rB balA balB =
      .ok (l', balA', balB', res, rA', rB')) :
    17 ≤ handValue res.dealerCards ∧
    (isBust res.cardsA = true → res.outcomeA = .loss) ∧
    (isBust res.cardsB = true → res.outcomeB = .loss) := by
  unfold playOneHandVs at h
  repeat' (first
    | exact Except.noConfusion h
    | split at h
    | simp only [] at h)
  all_goals simp only [Except.ok.injEq, Prod.mk.injEq] at h
  all_goals obtain ⟨rfl, rfl, rfl, rfl, rfl, rfl⟩ := h
  all_goals refine ⟨?_, ?_, ?_⟩
  all_goals try (intro hb)
  all_goals simp_all
  all_goals try (exact dealerPlays_ge17 _ _ _ _ (by assumption))

/-- **C3 counterexample**: in the streaming single-agent orchestrator, the
agent is dealt 10♥ 9♥, hits into 10♦ and busts at 29 — yet the dealer
(2♥ 3♥) still draws two more cards (K♠, 2♦) to reach 17, ending with four
cards.  This refutes the claim that in every orchestrator variant a busted
agent resolves without the dealer drawing any further cards. -/
theorem C3_counterexample :
    ∃ l' bal' res rep',
      playOneHandStream defaultConfig 100000 ⟨[(("m", "d"), 10000000)]⟩ "m"
        "d" [⟨.r10, .H⟩, ⟨.r9, .H⟩, ⟨.r2, .H⟩, ⟨.r3, .H⟩, ⟨.r10, .D⟩,
          ⟨.rK, .S⟩, ⟨.r2, .D⟩] ["BET: 10", "hit"] 10000000 =
        .ok (l', bal', res, rep') ∧
      isBust res.playerCards = true ∧ res.dealerCards.length = 4 ∧
      res.outcome = .loss := by
  refine ⟨_, _, _, _, rfl, rfl, rfl, rfl⟩

/-- **C3 amended**: in the non-streaming single-agent orchestrator
(`playHand`) the dealer plays out only if the agent did not bust — a bust
resolves as an immediate loss with the dealer keeping its two dealt cards;
in the streaming orchestrators (single-agent and VS) the dealer always
plays out to 17 after the reveal, but a busted agent's hand still resolves
as an immediate loss (the bust check overrides `resolveHand`), so the P/L
is unaffected. -/
theorem C3_dealer_bust_behavior :
    (∀ cfg l modelId date betCents deck reply l' r,
      playHand cfg l modelId date betCents deck reply = .ok (l', r) →
        (isBust r.playerCards = true →
          r.dealerCards.length = 2 ∧ r.outcome = .loss) ∧
        (isBust r.playerCards = false → 17 ≤ handValue r.dealerCards)) ∧
    (∀ cfg emax l modelId date deck replies balance l' bal' res rep',
      playOneHandStream cfg emax l modelId date deck replies balance =
          .ok (l', bal', res, rep') →
        17 ≤ handValue res.dealerCards ∧
        (isBust res.playerCards = true → res.outcome = .loss)) ∧
    (∀ cfg emax l mA mB date deck rA rB balA balB l' balA' balB' res rA'
        rB',
      playOneHandVs cfg emax l mA mB date deck rA rB balA balB =
          .ok (l', balA', balB', res, rA', rB') →
        17 ≤ handValue res.dealerCards ∧
        (isBust res.cardsA = true → res.outcomeA = .loss) ∧
        (isBust res.cardsB = true → res.outcomeB = .loss)) := by
  refine ⟨?_, ?_, ?_⟩
  · intro cfg l m d bet deck reply l' r h
    obtain ⟨_, _, hbust, hnb⟩ := playHand_ok cfg l m d bet deck reply l' r h
    exact ⟨hbust, fun hb => (hnb hb).1⟩
  · intro cfg emax l m d deck reps bal l' bal' res rep' h
    obtain ⟨h17, hb, _⟩ :=
      playOneHandStream_ok cfg emax l m d deck reps bal l' bal' res rep' h
    exact ⟨h17, hb⟩
  · intro cfg emax l mA mB d deck rA rB balA balB l' balA' balB' res rA'
      rB' h
    exact playOneHandVs_ok cfg emax l mA mB d deck rA rB balA balB l' balA'
      balB' res rA' rB' h

/-- Witness for C3: the `playHand` conjunct applied to the spec §8 round
(agent stands on 16, no bust), giving a dealer hand of value ≥ 17. -/
theorem C3_dealer_bust_behavior_witness :
    ∃ l' r, playHand defaultConfig ⟨[]⟩ "m" "d" 100000 specExampleDeck
        "stand" = .ok (l', r) ∧ 17 ≤ handValue r.dealerCards :=
  ⟨_, _, rfl,
    (C3_dealer_bust_behavior.1 defaultConfig ⟨[]⟩ "m" "d" 100000
      specExampleDeck "stand" _ _ rfl).2 rfl⟩

/-- The streaming player-turn loop exits only on a "stand" decision or on a
bust; each accepted hit draws exactly one card from the deck head (the
drawn cards are appended in order), and one reply is consumed per ask. -/
theorem playerTurn_exit (replies : List String) :
    ∀ deck cards cards' deck' dec rep',
    playerTurn deck cards replies = .ok (cards', deck', dec, rep') →
      (dec = "stand" ∨ (dec = "hit" ∧ isBust cards' = true)) ∧
      ∃ drawn, cards' = cards ++ drawn ∧ deck = drawn ++ deck' ∧
        replies.length = rep'.length + drawn.length +
          (if dec = "stand" then 1 else 0) := by
  induction replies with
  | nil =>
    intro deck cards cards' deck' dec rep' h
    unfold playerTurn at h
    exact Except.noConfusion h
  | cons r rest ih =>
    intro deck cards cards' deck' dec rep' h
    unfold playerTurn at h
    simp only [] at h
    split at h
    · split at h
      · exact Except.noConfusion h
      · split at h
        · next hb =>
          simp only [Except.ok.injEq, Prod.mk.injEq] at h
          obtain ⟨rfl, rfl, rfl, rfl⟩ := h
          exact ⟨Or.inr ⟨rfl, hb⟩, ⟨_, rfl, rfl, by simp⟩⟩
        · obtain ⟨hexit, drawn, hc, hd, hlen⟩ := ih _ _ _ _ _ _ h
          refine ⟨hexit, ⟨_ :: drawn, by simpa using hc, by simp [hd], ?_⟩⟩
          simp only [List.length_cons, hlen]
          omega
    · simp only [Except.ok.injEq, Prod.mk.injEq] at h
      obtain ⟨rfl, rfl, rfl, rfl⟩ := h
      exact ⟨Or.inl rfl, ⟨[], by simp, rfl, by simp⟩⟩

/-- **C9 counterexample**: `playHand` does not loop the play prompt.  With
the single reply "hit" the agent holds 2♥ 2♦ 2♠ (total 6, no bust) and the
recorded decision is still "hit": the round ended neither on a stand nor on
a bust, and no further prompt was issued — refuting the claim that in every
orchestrated round the agent is re-asked until it stands or busts. -/
theorem C9_counterexample :
    ∃ l' r, playHand defaultConfig ⟨[]⟩ "m" "d" 100000
        [⟨.r2, .H⟩, ⟨.r2, .D⟩, ⟨.rK, .D⟩, ⟨.r9, .C⟩, ⟨.r2, .S⟩] "hit" =
      .ok (l', r) ∧
      r.decision = "hit" ∧ isBust r.playerCards = false ∧
      r.playerCards.length = 3 := by
  refine ⟨_, _, rfl, rfl, rfl, rfl⟩

/-- **C9 amended**: the streaming orchestrators loop the play prompt —
after each hit exactly one card is drawn and bust is re-checked, the agent
is asked again until it stands or busts, and the loop exits only on stand
or bust (the hit count is bounded only by the reply stream and deck).  The
non-streaming `playHand`, by contrast, asks exactly once: its recorded
decision is the normalized single reply and the agent ends with two or
three cards. -/
theorem C9_play_prompt_loop :
    (∀ replies deck cards cards' deck' dec rep',
      playerTurn deck cards replies = .ok (cards', deck', dec, rep') →
        (dec = "stand" ∨ (dec = "hit" ∧ isBust cards' = true)) ∧
        ∃ drawn, cards' = cards ++ drawn ∧ deck = drawn ++ deck' ∧
          replies.length = rep'.length + drawn.length +
            (if dec = "stand" then 1 else 0)) ∧
    (∀ cfg l modelId date betCents deck reply l' r,
      playHand cfg l modelId date betCents deck reply = .ok (l', r) →
        r.decision = normalizeDecision reply ∧
        (r.playerCards.length = 2 ∨ r.playerCards.length = 3)) := by
  refine ⟨fun replies => playerTurn_exit replies, ?_⟩
  intro cfg l m d bet deck reply l' r h
  obtain ⟨hdec, hlen, _, _⟩ := playHand_ok cfg l m d bet deck reply l' r h
  exact ⟨hdec, hlen⟩

/-- Witness for C9: the loop conjunct applied to a concrete two-reply turn
(hit to 14, then stand). -/
theorem C9_play_prompt_loop_witness :
    ∃ cards' deck' dec rep',
      playerTurn [⟨.rK, .D⟩, ⟨.r9, .C⟩, ⟨.r2, .S⟩] [⟨.r2, .H⟩, ⟨.r2, .D⟩]
          ["hit", "stand"] = .ok (cards', deck', dec, rep') ∧
      (dec = "stand" ∨ (dec = "hit" ∧ isBust cards' = true)) := by
  refine ⟨_, _, _, _, rfl, ?_⟩
  exact (C9_play_prompt_loop.1 ["hit", "stand"]
    [⟨.rK, .D⟩, ⟨.r9, .C⟩, ⟨.r2, .S⟩] [⟨.r2, .H⟩, ⟨.r2, .D⟩]
    [⟨.r2, .H⟩, ⟨.r2, .D⟩, ⟨.rK, .D⟩] [⟨.r9, .C⟩, ⟨.r2, .S⟩] "stand" []
    rfl).1

/-- The single-agent streaming loop runs at most its fuel many hands, and
exactly the fuel many when it stops with `completed`. -/
theorem streamLoop_length (cfg : Config) (emax : Int) (m d : String)
    (n : Nat) : ∀ (l : Ledger) (bal : Int) (decks : List (List Card))
    (replies : List String),
    (streamLoop cfg emax m d n l bal decks replies).results.length ≤ n ∧
    ((streamLoop cfg emax m d n l bal decks replies).stop = .completed →
      (streamLoop cfg emax m d n l bal decks replies).results.length = n) := by
  induction n with
  | zero =>
    intro l bal decks replies
    simp [streamLoop]
  | succ n ih =>
    intro l bal decks replies
    unfold streamLoop
    split
    · simp
    · split
      · simp
      · split
        · simp
        · simp only []
          obtain ⟨ih1, ih2⟩ := ih _ _ _ _
          constructor
          · simpa using Nat.succ_le_succ ih1
          · intro hst
            simpa using ih2 hst

/-- The VS streaming loop runs at most its fuel many hands, and exactly
the fuel many when it stops with `completed`. -/
theorem vsLoop_length (cfg : Config) (emax : Int) (mA mB d : String)
    (n : Nat) : ∀ (l : Ledger) (balA balB : Int)
    (decks : List (List Card)) (rA rB : List String),
    (vsLoop cfg emax mA mB d n l balA balB decks rA rB).results.length ≤ n ∧
    ((vsLoop cfg emax mA mB d n l balA balB decks rA rB).stop = .completed →
      (vsLoop cfg emax mA mB d n l balA balB decks rA rB).results.length
        = n) := by
  induction n with
  | zero =>
    intro l balA balB decks rA rB
    simp [vsLoop]
  | succ n ih =>
    intro l balA balB decks rA rB
    unfold vsLoop
    split
    · simp
    · split
      · simp
      · split
        · simp
        · simp only []
          obtain ⟨ih1, ih2⟩ := ih _ _ _ _ _ _
          constructor
          · simpa using Nat.succ_le_succ ih1
          · intro hst
            simpa using ih2 hst

/-- **C10**: both streaming orchestrators clamp the requested round count
to `Math.max(1, Math.min(hands, 100))`: a zero or negative request still
plays one round, any request above 100 at most 100; the run plays exactly
that many rounds when it completes, and plays fewer only when it stops
early — on insufficient bankroll, or on a thrown fault (in this embedding a
fault also covers exhaustion of the finite deck/reply streams). -/
theorem C10_round_count_clamped (cfg : Config) (l : Ledger)
    (modelId mA mB date : String) (maxBetCents hands : Int)
    (decks : List (List Card)) (replies rA rB : List String) :
    ((hands ≤ 0 → totalHandsOf hands = 1) ∧
     (0 < hands → (totalHandsOf hands : Int) = min hands 100) ∧
     1 ≤ totalHandsOf hands ∧ totalHandsOf hands ≤ 100) ∧
    ((playHandsStream cfg l modelId date maxBetCents hands decks
        replies).results.length ≤ totalHandsOf hands ∧
     ((playHandsStream cfg l modelId date maxBetCents hands decks
        replies).stop = .completed →
       (playHandsStream cfg l modelId date maxBetCents hands decks
        replies).results.length = totalHandsOf hands) ∧
     ((playHandsStream cfg l modelId date maxBetCents hands decks
        replies).results.length < totalHandsOf hands →
       (playHandsStream cfg l modelId date maxBetCents hands decks
        replies).stop = .insufficientBankroll ∨
       ∃ msg, (playHandsStream cfg l modelId date maxBetCents hands decks
        replies).stop = .fault msg)) ∧
    ((playHandsStreamVs cfg l mA mB date maxBetCents hands decks rA
        rB).results.length ≤ totalHandsOf hands ∧
     ((playHandsStreamVs cfg l mA mB date maxBetCents hands decks rA
        rB).stop = .completed →
       (playHandsStreamVs cfg l mA mB date maxBetCents hands decks rA
        rB).results.length = totalHandsOf hands) ∧
     ((playHandsStreamVs cfg l mA mB date maxBetCents hands decks rA
        rB).results.length < totalHandsOf hands →
       (playHandsStreamVs cfg l mA mB date maxBetCents hands decks rA
        rB).stop = .insufficientBankroll ∨
       ∃ msg, (playHandsStreamVs cfg l mA mB date maxBetCents hands decks
        rA rB).stop = .fault msg)) := by
  refine ⟨?_, ?_, ?_⟩
  · unfold totalHandsOf
    refine ⟨fun h => ?_, fun h => ?_, ?_, ?_⟩ <;> omega
  · have e : playHandsStream cfg l modelId date maxBetCents hands decks
        replies = streamLoop cfg (effectiveMaxBetOf cfg maxBetCents)
          modelId date (totalHandsOf hands)
          (getOrCreateDailyBankroll cfg.blackjackDailyCents l modelId
            date).1
          (getOrCreateDailyBankroll cfg.blackjackDailyCents l modelId
            date).2 decks replies := rfl
    rw [e]
    obtain ⟨h1, h2⟩ := streamLoop_length cfg (effectiveMaxBetOf cfg
      maxBetCents) modelId date (totalHandsOf hands)
      (getOrCreateDailyBankroll cfg.blackjackDailyCents l modelId date).1
      (getOrCreateDailyBankroll cfg.blackjackDailyCents l modelId date).2
      decks replies
    refine ⟨h1, h2, fun hlt => ?_⟩
    cases hstop : (streamLoop cfg (effectiveMaxBetOf cfg maxBetCents)
        modelId date (totalHandsOf hands)
        (getOrCreateDailyBankroll cfg.blackjackDailyCents l modelId date).1
        (getOrCreateDailyBankroll cfg.blackjackDailyCents l modelId date).2
        decks replies).stop with
    | completed => exact absurd (h2 hstop) (by omega)
    | insufficientBankroll => exact Or.inl rfl
    | fault msg => exact Or.inr ⟨msg, rfl⟩
  · have e : playHandsStreamVs cfg l mA mB date maxBetCents hands decks rA
        rB = vsLoop cfg (effectiveMaxBetOf cfg maxBetCents) mA mB date
          (totalHandsOf hands)
          (getOrCreateDailyBankroll cfg.blackjackDailyCents
            (getOrCreateDailyBankroll cfg.blackjackDailyCents l mA date).1
            mB date).1
          (getOrCreateDailyBankroll cfg.blackjackDailyCents l mA date).2
          (getOrCreateDailyBankroll cfg.blackjackDailyCents
            (getOrCreateDailyBankroll cfg.blackjackDailyCents l mA date).1
            mB date).2 decks rA rB := rfl
    rw [e]
    obtain ⟨h1, h2⟩ := vsLoop_length cfg (effectiveMaxBetOf cfg
      maxBetCents) mA mB date (totalHandsOf hands)
      (getOrCreateDailyBankroll cfg.blackjackDailyCents
        (getOrCreateDailyBankroll cfg.blackjackDailyCents l mA date).1 mB
        date).1
      (getOrCreateDailyBankroll cfg.blackjackDailyCents l mA date).2
      (getOrCreateDailyBankroll cfg.blackjackDailyCents
        (getOrCreateDailyBankroll cfg.blackjackDailyCents l mA date).1 mB
        date).2 decks rA rB
    refine ⟨h1, h2, fun hlt => ?_⟩
    cases hstop : (vsLoop cfg (effectiveMaxBetOf cfg maxBetCents) mA mB
        date (totalHandsOf hands)
        (getOrCreateDailyBankroll cfg.blackjackDailyCents
          (getOrCreateDailyBankroll cfg.blackjackDailyCents l mA date).1
          mB date).1
        (getOrCreateDailyBankroll cfg.blackjackDailyCents l mA date).2
        (getOrCreateDailyBankroll cfg.blackjackDailyCents
          (getOrCreateDailyBankroll cfg.blackjackDailyCents l mA date).1
          mB date).2 decks rA rB).stop with
    | completed => exact absurd (h2 hstop) (by omega)
    | insufficientBankroll => exact Or.inl rfl
    | fault msg => exact Or.inr ⟨msg, rfl⟩

/-- Witness for C10: a request for 0 hands is clamped to exactly one
round, and a concrete completed run plays exactly that one round. -/
theorem C10_round_count_clamped_witness :
    totalHandsOf 0 = 1 ∧
    (playHandsStream defaultConfig ⟨[]⟩ "m" "d" 0 0
      [[⟨.r10, .S⟩, ⟨.r6, .H⟩, ⟨.rK, .D⟩, ⟨.r9, .C⟩]]
      ["BET: 10", "stand"]).results.length = totalHandsOf 0 :=
  ⟨(C10_round_count_clamped defaultConfig ⟨[]⟩ "m" "a" "b" "d" 0 0
      [[⟨.r10, .S⟩, ⟨.r6, .H⟩, ⟨.rK, .D⟩, ⟨.r9, .C⟩]]
      ["BET: 10", "stand"] [] []).1.1 (by decide),
   (C10_round_count_clamped defaultConfig ⟨[]⟩ "m" "a" "b" "d" 0 0
      [[⟨.r10, .S⟩, ⟨.r6, .H⟩, ⟨.rK, .D⟩, ⟨.r9, .C⟩]]
      ["BET: 10", "stand"] [] []).2.1.2.1 (by rfl)⟩

/-- The `totalYes`/`totalNo` fold of the performance settlement equals the
sums of stakes over the matching bets, split by `direction = "outperform"`
versus everything else. -/
theorem perfTotals_spec (domain modelId period : String) :
    ∀ (db : List PerfBet) (t : Nat × Nat),
    db.foldl (fun t b =>
      if b.domain = domain ∧ b.model_id = modelId ∧ b.period = period then
        if b.direction = "outperform" then (t.1 + b.amount_cents, t.2)
        else (t.1, t.2 + b.amount_cents)
      else t) t =
    (t.1 + ((db.filter (fun x => x.domain = domain ∧ x.model_id = modelId ∧
        x.period = period ∧ x.direction = "outperform")).map
        (fun x => x.amount_cents)).sum,
     t.2 + ((db.filter (fun x => x.domain = domain ∧ x.model_id = modelId ∧
        x.period = period ∧ x.direction ≠ "outperform")).map
        (fun x => x.amount_cents)).sum) := by
  intro db
  induction db with
  | nil => intro t; simp
  | cons b db ih =>
    intro t
    simp only [List.foldl_cons, List.filter_cons]
    by_cases h1 : b.domain = domain ∧ b.model_id = modelId ∧
      b.period = period
    · by_cases h2 : b.direction = "outperform"
      · rw [if_pos h1, if_pos h2, ih]
        simp [h1, h2]
        omega
      · rw [if_pos h1, if_neg h2, ih]
        simp [h1, h2]
        omega
    · rw [if_neg h1, ih]
      simp only [decide_eq_true_eq]
      rw [if_neg (by tauto), if_neg (by tauto)]

/-- **C5**: settling a pending performance bet of a (model, period) marks
it "win" exactly when the model's cumulative P/L is strictly positive and
the bet's side matches (zero or negative P/L makes "no" win); a winning
stake pays `Math.round(stake · totalPool / totalWinningStake)` where
`totalPool` sums all stakes on both sides of that (model, period), a
losing stake pays 0, and divisor 1 replaces an empty winning pool.  Every
settled bet is "win" or "loss" — never a push. -/
theorem C5_performance_settlement (db : List PerfBet) (pnlOf : String → Int)
    (period : String) (i : Nat) (b : PerfBet) (hb : db.get? i = some b)
    (hpend : b.outcome = "pending") (hdom : b.domain = "blackjack")
    (hper : b.period = period) :
    ∃ b', (settleBetsForPeriod db pnlOf "blackjack" period).get? i =
        some b' ∧
      (let yesPool := ((db.filter (fun x => x.domain = "blackjack" ∧
          x.model_id = b.model_id ∧ x.period = period ∧
          x.direction = "outperform")).map (fun x => x.amount_cents)).sum
       let noPool := ((db.filter (fun x => x.domain = "blackjack" ∧
          x.model_id = b.model_id ∧ x.period = period ∧
          x.direction ≠ "outperform")).map (fun x => x.amount_cents)).sum
       let winSide := 0 < pnlOf b.model_id
       let win := if b.direction = "outperform" then winSide else ¬ winSide
       let totalWinning := if winSide then yesPool else noPool
       (b'.outcome = "win" ∨ b'.outcome = "loss") ∧
       (b'.outcome = "win" ↔ win) ∧
       b'.payout_cents = some (if win then
         jsRound (b.amount_cents * (yesPool + noPool))
           (if 0 < totalWinning then totalWinning else 1) else 0)) := by
  have hmap : settleBetsForPeriod db pnlOf "blackjack" period =
      db.map (settlePerfBet db pnlOf "blackjack" period) := by
    unfold settleBetsForPeriod
    rw [if_pos rfl]
  refine ⟨settlePerfBet db pnlOf "blackjack" period b, ?_, ?_⟩
  · rw [hmap, List.get?_map, hb]
    rfl
  · unfold settlePerfBet
    rw [if_pos ⟨hpend, hdom, hper⟩]
    unfold perfTotals
    rw [perfTotals_spec]
    simp only [Nat.zero_add]
    by_cases hw : 0 < pnlOf b.model_id
    · by_cases hd : b.direction = "outperform"
      · simp [hw, hd]
      · simp [hw, hd]
    · by_cases hd : b.direction = "outperform"
      · simp [hw, hd]
      · simp [hw, hd]

/-- The two-bet example of spec §8: $30 on "yes", $10 on "no". -/
def c5db : List PerfBet :=
  [⟨"b1", "blackjack", "m", "p", "outperform", 3000, "pending", none⟩,
   ⟨"b2", "blackjack", "m", "p", "underperform", 1000, "pending", none⟩]

/-- Witness for C5 on the spec §8 example with strictly positive P/L. -/
theorem C5_performance_settlement_witness :
    c5db.get? 0 = some ⟨"b1", "blackjack", "m", "p", "outperform", 3000,
      "pending", none⟩ ∧
    (∃ b', (settleBetsForPeriod c5db (fun _ => 1) "blackjack" "p").get? 0 =
        some b' ∧
      (let yesPool := ((c5db.filter (fun x => x.domain = "blackjack" ∧
          x.model_id = "m" ∧ x.period = "p" ∧
          x.direction = "outperform")).map (fun x => x.amount_cents)).sum
       let noPool := ((c5db.filter (fun x => x.domain = "blackjack" ∧
          x.model_id = "m" ∧ x.period = "p" ∧
          x.direction ≠ "outperform")).map (fun x => x.amount_cents)).sum
       let winSide := (0 : Int) < 1
       let win := if ("outperform" : String) = "outperform" then winSide
         else ¬ winSide
       let totalWinning := if winSide then yesPool else noPool
       (b'.outcome = "win" ∨ b'.outcome = "loss") ∧
       (b'.outcome = "win" ↔ win) ∧
       b'.payout_cents = some (if win then
         jsRound (3000 * (yesPool + noPool))
           (if 0 < totalWinning then totalWinning else 1) else 0))) :=
  ⟨rfl, C5_performance_settlement c5db (fun _ => 1) "p" 0
    ⟨"b1", "blackjack", "m", "p", "outperform", 3000, "pending", none⟩
    rfl rfl rfl rfl⟩

/-- A non-pending head-to-head bet is skipped by the settlement pass: the
row is unchanged and nothing is credited. -/
theorem settleN3Bet_nonpending (db : List N3Bet)
    (stats : String → String → DailyState) (b : N3Bet)
    (h : b.outcome ≠ "pending") : settleN3Bet db stats b = (b, 0) := by
  unfold settleN3Bet
  rw [if_pos h]

/-- A pending head-to-head bet whose agents have not both played at least
3 rounds beyond their placement snapshots stays pending, unchanged, with
nothing credited. -/
theorem settleN3Bet_unmet (db : List N3Bet)
    (stats : String → String → DailyState) (b : N3Bet)
    (h1 : b.outcome = "pending")
    (h2 : ¬((stats b.model_a_id b.date).handsPlayed ≥
        b.hands_a_at_bet + 3 ∧
      (stats b.model_b_id b.date).handsPlayed ≥ b.hands_b_at_bet + 3)) :
    settleN3Bet db stats b = (b, 0) := by
  unfold settleN3Bet
  rw [if_neg (by simp [h1]), if_neg h2]

/-- A pending head-to-head bet whose settlement condition is met leaves
the step with outcome "push", "win" or "loss" — never "pending". -/
theorem settleN3Bet_settled_outcome (db : List N3Bet)
    (stats : String → String → DailyState) (b : N3Bet)
    (h1 : b.outcome = "pending")
    (h2 : (stats b.model_a_id b.date).handsPlayed ≥
        b.hands_a_at_bet + 3 ∧
      (stats b.model_b_id b.date).handsPlayed ≥ b.hands_b_at_bet + 3) :
    (settleN3Bet db stats b).1.outcome = "push" ∨
    (settleN3Bet db stats b).1.outcome = "win" ∨
    (settleN3Bet db stats b).1.outcome = "loss" := by
  unfold settleN3Bet
  rw [if_neg (by simp [h1]), if_pos h2]
  simp only []
  split
  · left
    rfl
  · split
    · right
      left
      rfl
    · right
      right
      rfl

/-- Re-applying the per-bet settlement step to its own output (against any
table snapshot) changes nothing and credits nothing. -/
theorem settleN3Bet_twice (db1 db2 : List N3Bet)
    (stats : String → String → DailyState) (b : N3Bet) :
    settleN3Bet db2 stats (settleN3Bet db1 stats b).1 =
      ((settleN3Bet db1 stats b).1, 0) := by
  by_cases h1 : b.outcome = "pending"
  · by_cases h2 : (stats b.model_a_id b.date).handsPlayed ≥
        b.hands_a_at_bet + 3 ∧
      (stats b.model_b_id b.date).handsPlayed ≥ b.hands_b_at_bet + 3
    · rcases settleN3Bet_settled_outcome db1 stats b h1 h2 with h | h | h
      · exact settleN3Bet_nonpending db2 stats (settleN3Bet db1 stats b).1
          (by rw [h]; decide)
      · exact settleN3Bet_nonpending db2 stats (settleN3Bet db1 stats b).1
          (by rw [h]; decide)
      · exact settleN3Bet_nonpending db2 stats (settleN3Bet db1 stats b).1
          (by rw [h]; decide)
    · rw [settleN3Bet_unmet db1 stats b h1 h2]
      exact settleN3Bet_unmet db2 stats b h1 h2
  · rw [settleN3Bet_nonpending db1 stats b h1]
    exact settleN3Bet_nonpending db2 stats b h1

/-- The whole `listNext3Bets` settlement pass is idempotent: running it
again on its own output changes no row and credits 0. -/
theorem settleN3Pass_idem (db : List N3Bet)
    (stats : String → String → DailyState) :
    settleN3Pass (settleN3Pass db stats).1 stats =
      ((settleN3Pass db stats).1, 0) := by
  unfold settleN3Pass
  simp only [List.map_map, Prod.mk.injEq]
  constructor
  · refine List.map_congr_left (fun a _ => ?_)
    simp only [Function.comp]
    rw [settleN3Bet_twice]
  · have h2 : ∀ a ∈ db, ((fun b => (settleN3Bet (db.map fun b =>
        (settleN3Bet db stats b).1) stats b).2) ∘ fun b =>
        (settleN3Bet db stats b).1) a = (fun _ => (0 : Nat)) a := by
      intro a _
      simp only [Function.comp]
      rw [settleN3Bet_twice]
    rw [List.map_congr_left h2]
    simp

/-- The per-bet performance settlement either leaves the row's outcome
unchanged or sets it to "win" or "loss". -/
theorem settlePerfBet_outcome_cases (db : List PerfBet)
    (pnl : String → Int) (domain period : String) (p : PerfBet) :
    (settlePerfBet db pnl domain period p).outcome = p.outcome ∨
    (settlePerfBet db pnl domain period p).outcome = "win" ∨
    (settlePerfBet db pnl domain period p).outcome = "loss" := by
  unfold settlePerfBet
  split
  · dsimp only
    repeat' split
    all_goals simp
  · left
    rfl

/-- **C6**: a head-to-head wager never settles early — while either agent
has played fewer than 3 rounds beyond its placement snapshot the row stays
pending and no payout is credited; the pass skips already-settled rows,
and re-running the whole pass on its own output is the identity and
credits nothing. -/
theorem C6_next3_settlement_gating (db : List N3Bet)
    (stats : String → String → DailyState) (b : N3Bet)
    (hpend : b.outcome = "pending")
    (hunmet : ¬((stats b.model_a_id b.date).handsPlayed ≥
        b.hands_a_at_bet + 3 ∧
      (stats b.model_b_id b.date).handsPlayed ≥ b.hands_b_at_bet + 3)) :
    settleN3Bet db stats b = (b, 0) ∧
    (∀ c : N3Bet, c.outcome ≠ "pending" →
      settleN3Bet db stats c = (c, 0)) ∧
    settleN3Pass (settleN3Pass db stats).1 stats =
      ((settleN3Pass db stats).1, 0) :=
  ⟨settleN3Bet_unmet db stats b hpend hunmet,
   fun c hc => settleN3Bet_nonpending db stats c hc,
   settleN3Pass_idem db stats⟩

/-- **C7**: when a head-to-head wager settles with both agents' P/L gains
since placement exactly equal, its outcome is "push" and the payout is
exactly the stake (no pool redistribution); performance-wager settlement,
for any domain and period, never produces a "push" outcome. -/
theorem C7_push_refund_no_perf_push (db : List N3Bet)
    (stats : String → String → DailyState) (b : N3Bet)
    (hpend : b.outcome = "pending")
    (hmet : (stats b.model_a_id b.date).handsPlayed ≥
        b.hands_a_at_bet + 3 ∧
      (stats b.model_b_id b.date).handsPlayed ≥ b.hands_b_at_bet + 3)
    (htie : (stats b.model_a_id b.date).pnlCents - b.pnl_a_at_bet =
      (stats b.model_b_id b.date).pnlCents - b.pnl_b_at_bet) :
    settleN3Bet db stats b =
      ({ b with outcome := "push", payout_cents := some b.amount_cents },
        b.amount_cents) ∧
    (∀ (pdb : List PerfBet) (pnlOf : String → Int)
      (domain period : String) (j : Nat) (p p' : PerfBet),
      pdb.get? j = some p → p.outcome ≠ "push" →
      (settleBetsForPeriod pdb pnlOf domain period).get? j = some p' →
      p'.outcome ≠ "push") := by
  constructor
  · unfold settleN3Bet
    rw [if_neg (by simp [hpend]), if_pos hmet]
    simp only []
    rw [if_pos htie]
  · intro pdb pnlOf domain period j p p' hp hnp hp'
    unfold settleBetsForPeriod at hp'
    by_cases hdom : domain = "blackjack"
    · rw [if_pos hdom, List.get?_map, hp] at hp'
      simp only [Option.map_some', Option.some.injEq] at hp'
      subst hp'
      rcases settlePerfBet_outcome_cases pdb pnlOf domain period p with
        h | h | h
      · rw [h]
        exact hnp
      · rw [h]
        decide
      · rw [h]
        decide
    · rw [if_neg hdom, hp] at hp'
      simp only [Option.some.injEq] at hp'
      subst hp'
      exact hnp

/-- A freshly placed head-to-head bet (snapshots zero). -/
def c6bet : N3Bet :=
  ⟨"n1", "a", "b", "a_wins", 500, "pending", none, 0, 0, 0, 0, "d"⟩

/-- Witness for C6: a fresh pending bet with zero additional rounds played
is left untouched by the pass. -/
theorem C6_next3_settlement_gating_witness :
    (c6bet.outcome = "pending" ∧
      ¬(((fun _ _ => (⟨0, 0⟩ : DailyState)) c6bet.model_a_id
          c6bet.date).handsPlayed ≥ c6bet.hands_a_at_bet + 3 ∧
        ((fun _ _ => (⟨0, 0⟩ : DailyState)) c6bet.model_b_id
          c6bet.date).handsPlayed ≥ c6bet.hands_b_at_bet + 3)) ∧
    (settleN3Bet [c6bet] (fun _ _ => ⟨0, 0⟩) c6bet = (c6bet, 0) ∧
     (∀ c : N3Bet, c.outcome ≠ "pending" →
       settleN3Bet [c6bet] (fun _ _ => ⟨0, 0⟩) c = (c, 0)) ∧
     settleN3Pass (settleN3Pass [c6bet] (fun _ _ => ⟨0, 0⟩)).1
         (fun _ _ => ⟨0, 0⟩) =
       ((settleN3Pass [c6bet] (fun _ _ => ⟨0, 0⟩)).1, 0)) :=
  ⟨⟨rfl, by decide⟩,
    C6_next3_settlement_gating [c6bet] (fun _ _ => ⟨0, 0⟩) c6bet rfl
      (by decide)⟩

/-- A head-to-head bet that will settle as a push. -/
def c7bet : N3Bet :=
  ⟨"n2", "a", "b", "a_wins", 500, "pending", none, 0, 0, 0, 0, "d"⟩

/-- Witness for C7: a pending bet whose agents both played 3 more rounds
with identical zero gains settles as a push refunding the 500¢ stake. -/
theorem C7_push_refund_no_perf_push_witness :
    (c7bet.outcome = "pending" ∧
      (((fun _ _ => (⟨3, 0⟩ : DailyState)) c7bet.model_a_id
          c7bet.date).handsPlayed ≥ c7bet.hands_a_at_bet + 3 ∧
        ((fun _ _ => (⟨3, 0⟩ : DailyState)) c7bet.model_b_id
          c7bet.date).handsPlayed ≥ c7bet.hands_b_at_bet + 3)) ∧
    (settleN3Bet [c7bet] (fun _ _ => ⟨3, 0⟩) c7bet =
      ({ c7bet with
          outcome := "push"
          payout_cents := some c7bet.amount_cents },
        c7bet.amount_cents) ∧
     (∀ (pdb : List PerfBet) (pnlOf : String → Int)
       (domain period : String) (j : Nat) (p p' : PerfBet),
       pdb.get? j = some p → p.outcome ≠ "push" →
       (settleBetsForPeriod pdb pnlOf domain period).get? j = some p' →
       p'.outcome ≠ "push")) :=
  ⟨⟨rfl, by decide⟩,
    C7_push_refund_no_perf_push [c7bet] (fun _ _ => ⟨3, 0⟩) c7bet rfl
      (by decide) (by decide)⟩

/-- The shared bet clamp `raw != null ? Math.max(minBet,
Math.min(handMaxBet, raw)) : minBet`: whenever the minimum does not exceed
the cap, the result lies in `[minBet, handMaxBet]`, an unparseable reply
yields exactly the minimum, and a parsed amount is clamped to the nearest
bound. -/
theorem betFromReply_spec (minBet handMaxBet : Int) (reply : String)
    (h : minBet ≤ handMaxBet) :
    minBet ≤ betFromReply minBet handMaxBet reply ∧
    betFromReply minBet handMaxBet reply ≤ handMaxBet ∧
    (parseBetFromResponse reply = none →
      betFromReply minBet handMaxBet reply = minBet) ∧
    (∀ raw : Nat, parseBetFromResponse reply = some raw →
      betFromReply minBet handMaxBet reply =
        max minBet (min handMaxBet (raw : Int))) := by
  refine ⟨?_, ?_, ?_, ?_⟩
  · unfold betFromReply
    cases hp : parseBetFromResponse reply
    · exact le_refl _
    · exact le_max_left _ _
  · unfold betFromReply
    cases hp : parseBetFromResponse reply
    · exact h
    · exact max_le h (min_le_left _ _)
  · unfold betFromReply
    cases hp : parseBetFromResponse reply
    · intro _
      rfl
    · intro hnone
      exact Option.noConfusion hnone
  · unfold betFromReply
    cases hp : parseBetFromResponse reply
    · intro raw hr
      exact Option.noConfusion hr
    · intro raw hr
      simp only [Option.some.injEq] at hr
      rw [hr]

/-- `getAIBetCents` accepts exactly the clamped parse of the reply against
`min(balance, MAX_BET_CENTS)` once the `balance ≥ MIN_BET_CENTS` guard
passes. -/
theorem getAIBetCents_bet (cfg : Config) (l : Ledger)
    (modelId date reply : String)
    (hbal : cfg.blackjackMinBetCents ≤
      (getOrCreateDailyBankroll cfg.blackjackDailyCents l modelId date).2) :
    getAIBetCents cfg l modelId date reply =
      .ok ((getOrCreateDailyBankroll cfg.blackjackDailyCents l modelId
          date).1,
        betFromReply cfg.blackjackMinBetCents
          (min (getOrCreateDailyBankroll cfg.blackjackDailyCents l modelId
            date).2 cfg.blackjackMaxBetCents) reply) := by
  unfold getAIBetCents
  simp only []
  rw [if_neg (by omega)]

/-- The streaming single-agent wager prompt (service.ts 244-269): the
accepted wager of a completed hand is exactly the clamped parse of the bet
reply against `min(balance, effectiveMaxBet)`. -/
theorem playOneHandStream_bet (cfg : Config) (emax : Int) (l : Ledger)
    (modelId date : String) (deck : List Card) (betReply : String)
    (rest : List String) (balance : Int) (l' : Ledger) (bal' : Int)
    (res : StreamHandResult) (rep' : List String)
    (h : playOneHandStream cfg emax l modelId date deck (betReply :: rest)
      balance = .ok (l', bal', res, rep')) :
    res.betCents = betFromReply cfg.blackjackMinBetCents
      (min balance emax) betReply := by
  unfold playOneHandStream at h
  repeat' (first
    | exact Except.noConfusion h
    | split at h
    | simp only [] at h)
  all_goals simp only [Except.ok.injEq, Prod.mk.injEq] at h
  all_goals obtain ⟨rfl, rfl, rfl, rfl⟩ := h
  all_goals simp_all [nextReply]

/-- The VS wager prompts: each side's accepted wager is exactly the
clamped parse of its own bet reply against `min(own balance,
effectiveMaxBet)`. -/
theorem playOneHandVs_bets (cfg : Config) (emax : Int) (l : Ledger)
    (mA mB date : String) (deck : List Card) (rA0 : String)
    (rAs : List String) (rB0 : String) (rBs : List String)
    (balA balB : Int) (l' : Ledger) (balA' balB' : Int)
    (res : VsHandResult) (rA' rB' : List String)
    (h : playOneHandVs cfg emax l mA mB date deck (rA0 :: rAs)
      (rB0 :: rBs) balA balB = .ok (l', balA', balB', res, rA', rB')) :
    res.betA = betFromReply cfg.blackjackMinBetCents (min balA emax) rA0 ∧
    res.betB = betFromReply cfg.blackjackMinBetCents (min balB emax) rB0 := by
  unfold playOneHandVs at h
  repeat' (first
    | exact Except.noConfusion h
    | split at h
    | simp only [] at h)
  all_goals simp only [Except.ok.injEq, Prod.mk.injEq] at h
  all_goals obtain ⟨rfl, rfl, rfl, rfl, rfl, rfl⟩ := h
  all_goals constructor
  all_goals simp_all [nextReply]

/-- **C8**: for every agent reply to a wager prompt — the
`getAIBetCents` path and the streaming single-agent and VS paths alike —
the accepted wager is `betFromReply`, the clamped parse of the reply
against `min(balance, effective maximum)`; and whenever the configured
minimum does not exceed that cap, the accepted wager lies in
`[minimum, min(balance, maximum)]`, a reply with no parseable `BET:`
amount (negative or non-numeric amounts never match; an amount overflowing
IEEE-754 double fails the `Number.isFinite` check) yields exactly the
minimum, and a parseable amount is clamped to the nearest bound rather
than rejected. -/
theorem C8_wager_prompt_clamped :
    (∀ (minBet handMaxBet : Int) (reply : String), minBet ≤ handMaxBet →
      minBet ≤ betFromReply minBet handMaxBet reply ∧
      betFromReply minBet handMaxBet reply ≤ handMaxBet ∧
      (parseBetFromResponse reply = none →
        betFromReply minBet handMaxBet reply = minBet) ∧
      (∀ raw : Nat, parseBetFromResponse reply = some raw →
        betFromReply minBet handMaxBet reply =
          max minBet (min handMaxBet (raw : Int)))) ∧
    (∀ (cfg : Config) (l : Ledger) (modelId date reply : String),
      cfg.blackjackMinBetCents ≤
        (getOrCreateDailyBankroll cfg.blackjackDailyCents l modelId
          date).2 →
      getAIBetCents cfg l modelId date reply =
        .ok ((getOrCreateDailyBankroll cfg.blackjackDailyCents l modelId
            date).1,
          betFromReply cfg.blackjackMinBetCents
            (min (getOrCreateDailyBankroll cfg.blackjackDailyCents l
              modelId date).2 cfg.blackjackMaxBetCents) reply)) ∧
    (∀ (cfg : Config) (emax : Int) (l : Ledger) (modelId date : String)
      (deck : List Card) (betReply : String) (rest : List String)
      (balance : Int) (l' : Ledger) (bal' : Int) (res : StreamHandResult)
      (rep' : List String),
      playOneHandStream cfg emax l modelId date deck (betReply :: rest)
        balance = .ok (l', bal', res, rep') →
      res.betCents = betFromReply cfg.blackjackMinBetCents
        (min balance emax) betReply) ∧
    (∀ (cfg : Config) (emax : Int) (l : Ledger) (mA mB date : String)
      (deck : List Card) (rA0 : String) (rAs : List String) (rB0 : String)
      (rBs : List String) (balA balB : Int) (l' : Ledger)
      (balA' balB' : Int) (res : VsHandResult) (rA' rB' : List String),
      playOneHandVs cfg emax l mA mB date deck (rA0 :: rAs) (rB0 :: rBs)
        balA balB = .ok (l', balA', balB', res, rA', rB') →
      res.betA = betFromReply cfg.blackjackMinBetCents (min balA emax)
        rA0 ∧
      res.betB = betFromReply cfg.blackjackMinBetCents (min balB emax)
        rB0) :=
  ⟨betFromReply_spec, getAIBetCents_bet,
   fun cfg emax l modelId date deck betReply rest balance l' bal' res
     rep' h => playOneHandStream_bet cfg emax l modelId date deck betReply
       rest balance l' bal' res rep' h,
   fun cfg emax l mA mB date deck rA0 rAs rB0 rBs balA balB l' balA' balB'
     res rA' rB' h => playOneHandVs_bets cfg emax l mA mB date deck rA0
       rAs rB0 rBs balA balB l' balA' balB' res rA' rB' h⟩

/-- Witness for C8: "BET: 50000" ($50,000, above every cap) is clamped
into range, both through the bare clamp and through a concrete completed
streaming hand. -/
theorem C8_wager_prompt_clamped_witness :
    ((100 : Int) ≤ 10000000 ∧
      (100 : Int) ≤ betFromReply 100 10000000 "BET: 50000" ∧
      betFromReply 100 10000000 "BET: 50000" ≤ 10000000) ∧
    (∃ l' bal' res rep',
      playOneHandStream defaultConfig 100000 ⟨[(("m", "d"), 10000000)]⟩
          "m" "d" [⟨.r10, .S⟩, ⟨.r6, .H⟩, ⟨.rK, .D⟩, ⟨.r9, .C⟩]
          ["BET: 50000", "stand"] 10000000 = .ok (l', bal', res, rep') ∧
      res.betCents = betFromReply defaultConfig.blackjackMinBetCents
        (min 10000000 100000) "BET: 50000") := by
  constructor
  · refine ⟨by decide, ?_, ?_⟩
    · exact (C8_wager_prompt_clamped.1 100 10000000 "BET: 50000"
        (by decide)).1
    · exact (C8_wager_prompt_clamped.1 100 10000000 "BET: 50000"
        (by decide)).2.1
  · refine ⟨_, _, _, _, rfl, ?_⟩
    exact C8_wager_prompt_clamped.2.2.1 defaultConfig 100000
      ⟨[(("m", "d"), 10000000)]⟩ "m" "d"
      [⟨.r10, .S⟩, ⟨.r6, .H⟩, ⟨.rK, .D⟩, ⟨.r9, .C⟩] "BET: 50000" ["stand"]
      10000000 _ _ _ _ rfl

end BenchMarket
